import Mathlib

/-!
Shallow embedding of `simplepyged/records.py` (a GEDCOM 5.5 record model and
genealogical relationship engine) and proofs about its behaviour.

Modelling conventions:
* Individuals, families and events are identified by natural numbers
  (standing for the Python object identities held in the parse registry).
* The registry dictionary `self._dict` is a lookup `String → Option Nat`.
* `Individual._init` caches `parent_families` (FAMC) and `families` (FAMS)
  as lists; the relationship engine only reads these cached lists, so the
  graph layer below stores them directly on each individual.
* Python functions that can fail to terminate (unbounded recursion over the
  family graph, which may be cyclic) are given an explicit fuel parameter
  and return `none` when the fuel runs out; `some r` means the Python call
  terminates with result `r`.
* Python exceptions are modelled with `Except`/dedicated result
  constructors (`PyExc`).
-/

/-- A raised Python exception, as distinguished by the claims. -/
inductive PyExc
  | multipleReturnValues
  | indexError
deriving DecidableEq

/-! ## Line layer (`Line.children_tags` / `Line.children_tag_records`) -/

/-- A child line of a record: only the tag and the value matter to the
accessors under study. -/
structure ChildLine where
  tag : String
  value : String
deriving DecidableEq

/-- `Line.children_tags(tag)`: child lines whose tag matches, in file order. -/
def children_tags (lines : List ChildLine) (t : String) : List ChildLine :=
  lines.filter (fun c => c.tag == t)

/-- `Line.children_tag_records(tag)`: dereference each matching child line's
value through the registry dict; a `KeyError` (missing xref) is swallowed
(`try ... except KeyError: pass`), i.e. the entry is skipped. -/
def children_tag_records (dict : String → Option Nat) (lines : List ChildLine)
    (t : String) : List Nat :=
  (children_tags lines t).filterMap (fun e => dict e.value)

/-- `Individual.get_parent_families()`: records referenced by FAMC lines. -/
def get_parent_families (dict : String → Option Nat) (lines : List ChildLine) :
    List Nat :=
  children_tag_records dict lines "FAMC"

/-- `Individual.parent_family()`: `None` for zero parent families, the unique
one if single, raises `MultipleReturnValues` for two or more. -/
def parent_family (pf : List Nat) : Except PyExc (Option Nat) :=
  match pf with
  | [] => Except.ok none
  | [f] => Except.ok (some f)
  | _ => Except.error PyExc.multipleReturnValues

/-! ## Graph layer (cached relationship data after `_init`) -/

/-- A `Family` record after `_init`: `_husband`, `_wife`, `_children`,
`marriage_events`. -/
structure Fam where
  husband : Option Nat
  wife : Option Nat
  children : List Nat
  marriage_events : List Nat
deriving DecidableEq

/-- An `Individual` record after `_init`: cached `_parent_families` (FAMC),
`_families` (FAMS), `birth_events`, `death_events`. -/
structure Ind where
  parent_families : List Nat
  families : List Nat
  birth_events : List Nat
  death_events : List Nat
deriving DecidableEq

/-- The resolved record graph: individual and family data by identity. -/
structure Gedcom where
  ind : Nat → Ind
  fam : Nat → Fam

/-- `Family.parents()`: husband (if any) then wife (if any). -/
def famParents (db : Gedcom) (f : Nat) : List Nat :=
  (match (db.fam f).husband with | some h => [h] | none => []) ++
  (match (db.fam f).wife with | some w => [w] | none => [])

/-- `Individual.parents()`: parents of every parent family, flattened. -/
def indParents (db : Gedcom) (i : Nat) : List Nat :=
  ((db.ind i).parent_families).flatMap (famParents db)

/-- `Family.parent_families()`: husband's parent families followed by the
wife's. -/
def famParentFamilies (db : Gedcom) (f : Nat) : List Nat :=
  (match (db.fam f).husband with
   | some h => (db.ind h).parent_families
   | none => []) ++
  (match (db.fam f).wife with
   | some w => (db.ind w).parent_families
   | none => [])

/-- `Individual.children()`: children of every spouse family, flattened. -/
def indChildren (db : Gedcom) (i : Nat) : List Nat :=
  ((db.ind i).families).flatMap (fun f => (db.fam f).children)

/-- `Individual.mutual_parent_families(candidate)`:
`list(set(self.parent_families()) & set(candidate.parent_families()))`.
Python's set intersection has unspecified iteration order; we model it as
the left operand's order with duplicates removed, and state only
order-insensitive (set-level) properties about it. -/
def mutual_parent_families (db : Gedcom) (a b : Nat) : List Nat :=
  (((db.ind a).parent_families).filter
    (fun f => f ∈ (db.ind b).parent_families)).dedup

/-- `Individual.is_parent(candidate)`: `candidate in self.parents()`. -/
def is_parent (db : Gedcom) (a c : Nat) : Bool :=
  c ∈ indParents db a

/-- `Individual.is_sibling(candidate)`: truthiness of
`mutual_parent_families`. -/
def is_sibling (db : Gedcom) (a b : Nat) : Bool :=
  !(mutual_parent_families db a b).isEmpty

/-! ## `Individual.is_ancestor` (unbounded recursion, hence fuel) -/

/-- The `for parent in self.parents()` loop inside `is_ancestor`,
parameterised by the recursive call: the first recursive call that fails to
terminate makes the whole loop fail to terminate (`none`); a `True` result
returns immediately; otherwise the loop continues. -/
def ancLoop (rec : Nat → Option Bool) : List Nat → Option Bool
  | [] => some false
  | p :: ps =>
    match rec p with
    | none => none
    | some true => some true
    | some false => ancLoop rec ps

/-- `Individual.is_ancestor(candidate)`: direct-parent test, then recursion
over each parent. `none` models non-termination within the given fuel. -/
def is_ancestor (db : Gedcom) : Nat → Nat → Nat → Option Bool
  | 0, _, _ => none
  | n + 1, a, c =>
    if is_parent db a c then some true
    else ancLoop (fun p => is_ancestor db n p c) (indParents db a)

/-- `candidate` is reachable from `a` by one or more parent hops
(the transitive closure of the parent relation): the relation `is_ancestor`
is intended to decide. -/
inductive Anc (db : Gedcom) : Nat → Nat → Prop
  | parent {a c : Nat} : c ∈ indParents db a → Anc db a c
  | step {a p c : Nat} : p ∈ indParents db a → Anc db p c → Anc db a c

/-! ## `Individual.distance_to_ancestor` (generation-by-generation loop) -/

/-- The `while ancestor_list != []` loop of `distance_to_ancestor`: check
emptiness, then membership, then replace the generation by all parents of
its members. Outer `none` models fuel exhaustion (a loop that never ends);
`some none` is the Python `return None` (no relation); `some (some d)` is a
found distance. -/
def distLoop (db : Gedcom) : Nat → List Nat → Nat → Nat → Option (Option Nat)
  | 0, _, _, _ => none
  | n + 1, gen, d, anc =>
    if gen = [] then some none
    else if anc ∈ gen then some (some d)
    else distLoop db n (gen.flatMap (indParents db)) (d + 1) anc

/-- `Individual.distance_to_ancestor(ancestor)`: BFS upward starting from
`[self]` at distance 0. -/
def distance_to_ancestor (db : Gedcom) (n : Nat) (self anc : Nat) :
    Option (Option Nat) :=
  distLoop db n [self] 0 anc

/-- `anc` is reachable from `a` by zero or more parent hops: exactly the
membership of some BFS generation of `distance_to_ancestor`. -/
inductive Reach (db : Gedcom) : Nat → Nat → Prop
  | refl (a : Nat) : Reach db a a
  | step {a p c : Nat} : p ∈ indParents db a → Reach db p c → Reach db a c

/-! ## `ancestor_families_with_distance` (per-path enumeration, then sort) -/

/-- Runs `rec` on every element of a list of families and concatenates the
resulting lists, propagating non-termination (`none`). This is the shape of
the `for fam in ...: extend(...)` loops in `_ancestor_families_with_distance`
and `ancestor_families_with_distance`. -/
def famAncChildren (rec : Nat → Option (List (Nat × Nat))) :
    List Nat → Option (List (Nat × Nat))
  | [] => some []
  | f :: fs =>
    match rec f, famAncChildren rec fs with
    | some l1, some l2 => some (l1 ++ l2)
    | _, _ => none

/-- `Family._ancestor_families_with_distance(distance)`: list every parent
family at `distance`, then recurse into each with `distance + 1`. -/
def famAncFuel (db : Gedcom) : Nat → Nat → Nat → Option (List (Nat × Nat))
  | 0, _, _ => none
  | n + 1, f, d =>
    match famAncChildren (fun g => famAncFuel db n g (d + 1))
        (famParentFamilies db f) with
    | none => none
    | some rest =>
        some ((famParentFamilies db f).map (fun g => (g, d)) ++ rest)

/-- The key ordering used by `sorted(..., key=lambda (fam, dist): dist)`. -/
def distLe (p q : Nat × Nat) : Prop := p.2 ≤ q.2

instance : DecidableRel distLe := fun p q => Nat.decLe p.2 q.2

instance : IsTotal (Nat × Nat) distLe := ⟨fun a b => Nat.le_total a.2 b.2⟩

instance : IsTrans (Nat × Nat) distLe := ⟨fun _ _ _ => Nat.le_trans⟩

/-- `Individual.ancestor_families_with_distance()`: for every parent family
append `(fam, 0)` and the family's recursive enumeration starting at 1, then
sort ascending by distance. Python's `sorted` is a stable sort; we model it
with the (stable) insertion sort. -/
def ancestor_families_with_distance (db : Gedcom) (n : Nat) (i : Nat) :
    Option (List (Nat × Nat)) :=
  (famAncChildren
      (fun f => (famAncFuel db n f 1).map (fun l => (f, 0) :: l))
      ((db.ind i).parent_families)).map
    (fun l => l.insertionSort distLe)

/-- `g` is an ancestor family of family `f`, `k` parent-family hops above
`f`'s own parent families (`k = 0`: a parent family of `f`). -/
inductive FamAncAt (db : Gedcom) : Nat → Nat → Nat → Prop
  | base {f g : Nat} : g ∈ famParentFamilies db f → FamAncAt db f g 0
  | step {f g h k : Nat} : g ∈ famParentFamilies db f → FamAncAt db g h k →
      FamAncAt db f h (k + 1)

/-- `f` is an ancestor family of individual `i` along some upward lineage
path of generational distance `d` (0 = own parent family, 1 = a
grandparent-level family, ...). -/
def IndAncFamAt (db : Gedcom) (i f d : Nat) : Prop :=
  (d = 0 ∧ f ∈ (db.ind i).parent_families) ∨
  (∃ f0 ∈ (db.ind i).parent_families, ∃ k, d = k + 1 ∧ FamAncAt db f0 f k)

/-! ## `common_ancestor_families` and `common_ancestors` -/

/-- `Individual.common_ancestor_families(relative)`: short-circuit on mutual
parent families; otherwise intersect both ancestor-family enumerations by
family, take the minimal self-side distance among common pairs and keep all
pairs achieving it. (`min` is only reached when the intersection is
nonempty, so the unreachable `none` branch of `List.min?` returns `[]`.) -/
def common_ancestor_families (db : Gedcom) (n : Nat) (a b : Nat) :
    Option (List Nat) :=
  let mut0 := mutual_parent_families db a b
  if mut0 ≠ [] then some mut0
  else
    match ancestor_families_with_distance db n a with
    | none => none
    | some my =>
      if my = [] then some []
      else
        match ancestor_families_with_distance db n b with
        | none => none
        | some his =>
          if his = [] then some []
          else
            let myf := my.map Prod.fst
            let hisf := his.map Prod.fst
            let common := (myf.filter (fun f => f ∈ hisf)).dedup
            if common = [] then some []
            else
              let commonMy := my.filter (fun p => p.1 ∈ common)
              match (commonMy.map Prod.snd).min? with
              | none => some []
              | some m =>
                  some ((commonMy.filter (fun p => p.2 = m)).map Prod.fst)

/-- `m` is the minimal self-side distance among ancestor-family pairs of
`my` whose family also occurs in `his`. -/
def IsMinCommonDist (my his : List (Nat × Nat)) (m : Nat) : Prop :=
  (∃ g, (g, m) ∈ my ∧ g ∈ his.map Prod.fst) ∧
  ∀ g d, (g, d) ∈ my → g ∈ his.map Prod.fst → m ≤ d

/-- `Individual.common_ancestors(relative)`: parents of every common
ancestor family, deduplicated by a membership check before each append. -/
def common_ancestors (db : Gedcom) (n : Nat) (a b : Nat) :
    Option (List Nat) :=
  (common_ancestor_families db n a b).map (fun cafs =>
    cafs.foldl
      (fun acc fam =>
        (famParents db fam).foldl
          (fun acc2 anc => if anc ∈ acc2 then acc2 else acc2 ++ [anc]) acc)
      [])

/-! ## `down_path` and `path_to_relative` -/

/-- The `for c in ancestor.children()` loop of `down_path`, parameterised by
the recursive call. A recursive call that fails to terminate makes the loop
fail to terminate; the first child through which a path is found returns
`[ancestor] ++ path` (`path.insert(0, ancestor)`); otherwise the loop falls
through to `return None`. -/
def downPathLoop (rec : Nat → Option (Option (List Nat))) (anc : Nat) :
    List Nat → Option (Option (List Nat))
  | [] => some none
  | c :: cs =>
    match rec c with
    | none => none
    | some (some path) => some (some (anc :: path))
    | some none => downPathLoop rec anc cs

/-- `Individual.down_path(ancestor, descendant, distance)`: DFS through the
children graph. `dist = none` models the Python default `distance = None`
(no depth bound); a zero bound returns `None` immediately. Outer `none` is
fuel exhaustion (non-termination), `some none` is Python `None` (not
found), `some (some p)` the found path. -/
def down_path (db : Gedcom) : Nat → Option Nat → Nat → Nat →
    Option (Option (List Nat))
  | 0, _, _, _ => none
  | n + 1, dist, anc, desc =>
    if dist = some 0 then some none
    else if anc = desc then some (some [anc])
    else if indChildren db anc = [] then some none
    else if desc ∈ indChildren db anc then some (some [anc, desc])
    else
      downPathLoop
        (fun c => down_path db n (dist.map (fun d => d - 1)) c desc)
        anc (indChildren db anc)

/-- The truncation loop `for step in old_path: append; if step == x: break`
used by `path_to_relative` when the relative (resp. self) already occurs in
a path. -/
def takeUpTo (x : Nat) : List Nat → List Nat
  | [] => []
  | a :: rest => if a = x then [a] else a :: takeUpTo x rest

/-- Result of `path_to_relative`: a step list, Python `None` (not a
relative), or an uncaught Python exception (by its class name). -/
inductive PathOut
  | steps (l : List (Nat × String))
  | noRel
  | pyError (e : String)
deriving DecidableEq

/-- `Individual.path_to_relative(relative, compact)`.

Faithful points worth flagging:
* `my_path[1:]` keeps the common ancestor on the self side (source comment:
  "my path with common ancestor"), labelled `parent`.
* in the `compact` branch, `full_path[-1]` is a tuple, so the assignment
  `full_path[-1][1] = 'sibling'` raises an uncaught `TypeError` (tuples do
  not support item assignment); only `IndexError` (from `his_path[1]` when
  `his_path` is too short) is caught, appending the ancestor explicitly.
* a failed `down_path` (`None`) makes the subsequent `.reverse()` raise an
  uncaught `AttributeError`. -/
def path_to_relative (db : Gedcom) (n : Nat) (self rel : Nat)
    (compact : Bool) : Option PathOut :=
  if rel = self then some (PathOut.steps [(self, "start")])
  else if rel ∈ indParents db self then
    some (PathOut.steps [(self, "start"), (rel, "parent")])
  else if rel ∈ indChildren db self then
    some (PathOut.steps [(self, "start"), (rel, "child")])
  else
    match common_ancestors db n self rel with
    | none => none
    | some cas =>
      match cas with
      | [] => some PathOut.noRel
      | ca :: _ =>
        let mpRun : Option (Option (List Nat)) :=
          if self ∈ cas then some (some [])
          else
            match distance_to_ancestor db n self ca with
            | none => none
            | some d => down_path db n d ca self
        match mpRun with
        | none => none
        | some none => some (PathOut.pyError "AttributeError")
        | some (some myPath0) =>
          let hpRun : Option (Option (List Nat)) :=
            if rel ∈ cas then some (some [])
            else
              match distance_to_ancestor db n rel ca with
              | none => none
              | some d => down_path db n d ca rel
          match hpRun with
          | none => none
          | some none => some (PathOut.pyError "AttributeError")
          | some (some hisPath0) =>
            let myPath1 := myPath0.reverse
            let hisPath1 := hisPath0.reverse
            let myPath2 := if rel ∈ myPath1 then takeUpTo rel myPath1
                           else myPath1
            let hisPath2 := if rel ∈ myPath1 then [rel] else hisPath1
            let myPath3 := if self ∈ hisPath2 then [self] else myPath2
            let hisPath3 := if self ∈ hisPath2 then takeUpTo self hisPath2
                            else hisPath2
            let hisPath := hisPath3.reverse
            let fullPath := (self, "start") ::
              (myPath3.drop 1).map (fun s => (s, "parent"))
            let afterCompact : Except Unit (List (Nat × String)) :=
              if compact then
                match hisPath.get? 1 with
                | some h1 =>
                  match fullPath.getLast? with
                  | some last =>
                    if is_sibling db last.1 h1 then Except.error ()
                    else Except.ok (fullPath ++ [(ca, "child")])
                  | none => Except.ok (fullPath ++ [(ca, "child")])
                | none => Except.ok (fullPath ++ [(ca, "child")])
              else Except.ok fullPath
            match afterCompact with
            | Except.error _ => some (PathOut.pyError "TypeError")
            | Except.ok fp =>
                some (PathOut.steps
                  (fp ++ (hisPath.drop 1).map (fun s => (s, "child"))))

/-! ## Singular accessors and events -/

/-- Candidate fathers: the husband of each parent family that has one. -/
def fathersOf (db : Gedcom) (i : Nat) : List Nat :=
  ((db.ind i).parent_families).filterMap (fun f => (db.fam f).husband)

/-- Candidate mothers: the wife of each parent family that has one. -/
def mothersOf (db : Gedcom) (i : Nat) : List Nat :=
  ((db.ind i).parent_families).filterMap (fun f => (db.fam f).wife)

/-- A Python value that is either a single `Individual` or a list of them:
the two shapes `father()`/`mother()` can return. -/
inductive SingleOrList
  | one (i : Nat)
  | many (l : List Nat)
deriving DecidableEq

/-- `Individual.father()`: `fathers[0]` when exactly one candidate exists,
the whole `fathers` list otherwise (including the empty list); never
raises. -/
def father (db : Gedcom) (i : Nat) : SingleOrList :=
  match fathersOf db i with
  | [x] => SingleOrList.one x
  | l => SingleOrList.many l

/-- `Individual.mother()`: same shape as `father()` over wives. -/
def mother (db : Gedcom) (i : Nat) : SingleOrList :=
  match mothersOf db i with
  | [x] => SingleOrList.one x
  | l => SingleOrList.many l

/-- `Family.marriage()`: `self.marriage_events[0]` — an uncaught
`IndexError` when the list is empty. -/
def marriage (f : Fam) : Except PyExc Nat :=
  match f.marriage_events with
  | [] => Except.error PyExc.indexError
  | e :: _ => Except.ok e

/-- `Individual.birth()`: `None` when there are no birth events, else the
first. -/
def birth (i : Ind) : Option Nat :=
  match i.birth_events with
  | [] => none
  | e :: _ => some e

/-- `Individual.death()`: `None` when there are no death events, else the
first. -/
def death (i : Ind) : Option Nat :=
  match i.death_events with
  | [] => none
  | e :: _ => some e

/-! ## Concrete record graphs used in witnesses and counterexamples -/

/-- An individual with no data. -/
def emptyInd : Ind := ⟨[], [], [], []⟩

/-- A family with no data. -/
def emptyFam : Fam := ⟨none, none, [], []⟩

/-- A graph with no relationships at all. -/
def dbEmpty : Gedcom := ⟨fun _ => emptyInd, fun _ => emptyFam⟩

/-- Chain child 0 → parent 1 → grandparent 2: family 0 (husband 1, child 0)
and family 1 (husband 2, child 1). -/
def dbKPG : Gedcom :=
  ⟨fun i => match i with
    | 0 => ⟨[0], [], [], []⟩
    | 1 => ⟨[1], [0], [], []⟩
    | 2 => ⟨[], [1], [], []⟩
    | _ => emptyInd,
   fun f => match f with
    | 0 => ⟨some 1, none, [0], []⟩
    | 1 => ⟨some 2, none, [1], []⟩
    | _ => emptyFam⟩

/-- A cyclic pedigree: individual 0 is the husband of its own parent family
0, so `parents(0) = [0]`. -/
def dbCyc : Gedcom :=
  ⟨fun i => match i with
    | 0 => ⟨[0], [0], [], []⟩
    | _ => emptyInd,
   fun f => match f with
    | 0 => ⟨some 0, none, [0], []⟩
    | _ => emptyFam⟩

/-- A pedigree where individual 0 has parents 1 (whose own parent graph is
cyclic: `parents(1) = [1]`) and 2, and 2 has the ordinary parent 3. -/
def dbCyc6 : Gedcom :=
  ⟨fun i => match i with
    | 0 => ⟨[0], [], [], []⟩
    | 1 => ⟨[1], [], [], []⟩
    | 2 => ⟨[2], [], [], []⟩
    | _ => emptyInd,
   fun f => match f with
    | 0 => ⟨some 1, some 2, [0], []⟩
    | 1 => ⟨some 1, none, [1], []⟩
    | 2 => ⟨some 3, none, [2], []⟩
    | _ => emptyFam⟩

/-- Siblings 0 and 1: both children of family 10 (husband 2, wife 3). -/
def dbSib : Gedcom :=
  ⟨fun i => match i with
    | 0 => ⟨[10], [], [], []⟩
    | 1 => ⟨[10], [], [], []⟩
    | 2 => ⟨[], [10], [], []⟩
    | 3 => ⟨[], [10], [], []⟩
    | _ => emptyInd,
   fun f => match f with
    | 10 => ⟨some 2, some 3, [0, 1], []⟩
    | _ => emptyFam⟩

/-- First cousins 0 and 1: parent families 20 and 21, whose husbands 2 and 3
are siblings from the grandparent family 22. -/
def dbCousin : Gedcom :=
  ⟨fun i => match i with
    | 0 => ⟨[20], [], [], []⟩
    | 1 => ⟨[21], [], [], []⟩
    | 2 => ⟨[22], [20], [], []⟩
    | 3 => ⟨[22], [21], [], []⟩
    | _ => emptyInd,
   fun f => match f with
    | 20 => ⟨some 2, none, [0], []⟩
    | 21 => ⟨some 3, none, [1], []⟩
    | 22 => ⟨none, none, [2, 3], []⟩
    | _ => emptyFam⟩

/-- Pedigree collapse: individual 0's parent family 10 has husband 1 and
wife 2; 1's parent family is 11, 2's is 12, and 11's husband 3 again has
parent family 12 — so family 12 is reachable at distance 1 (through 2) and
at distance 2 (through 1 and 3). -/
def dbAncDup : Gedcom :=
  ⟨fun i => match i with
    | 0 => ⟨[10], [], [], []⟩
    | 1 => ⟨[11], [10], [], []⟩
    | 2 => ⟨[12], [10], [], []⟩
    | 3 => ⟨[12], [11], [], []⟩
    | _ => emptyInd,
   fun f => match f with
    | 10 => ⟨some 1, some 2, [0], []⟩
    | 11 => ⟨some 3, none, [1], []⟩
    | 12 => ⟨none, none, [2, 3], []⟩
    | _ => emptyFam⟩

/-- Individuals 0 and 1 are children of family 0 whose husband is 2; 1 is
additionally a child of family 1 together with 2, so `is_sibling(2, 1)`
holds — the configuration that drives `path_to_relative(0, 1, compact)`
into the tuple-assignment branch. -/
def dbPath : Gedcom :=
  ⟨fun i => match i with
    | 0 => ⟨[0], [], [], []⟩
    | 1 => ⟨[0, 1], [], [], []⟩
    | 2 => ⟨[1], [0], [], []⟩
    | _ => emptyInd,
   fun f => match f with
    | 0 => ⟨some 2, none, [0, 1], []⟩
    | 1 => ⟨none, none, [2, 1], []⟩
    | _ => emptyFam⟩

/-- Individual 0 has two parent families 0 and 1 with husbands 1 and 2 and
wives 3 and 4: two father candidates and two mother candidates. -/
def dbTwoFathers : Gedcom :=
  ⟨fun i => match i with
    | 0 => ⟨[0, 1], [], [], []⟩
    | _ => emptyInd,
   fun f => match f with
    | 0 => ⟨some 1, some 3, [0], []⟩
    | 1 => ⟨some 2, some 4, [0], []⟩
    | _ => emptyFam⟩

/-- A small registry for the line-layer witnesses. -/
def dict9 : String → Option Nat := fun s =>
  if s = "@F1@" then some 1 else if s = "@F2@" then some 2 else none

/-! ## Helper lemmas -/

/-- A loop result `some false` means every parent's recursive call returned
`some false`. -/
lemma ancLoop_false {rec : Nat → Option Bool} :
    ∀ {l : List Nat}, ancLoop rec l = some false →
      ∀ p ∈ l, rec p = some false := by
  intro l
  induction l with
  | nil => intro _ p hp; cases hp
  | cons q qs ih =>
    intro h p hp
    rw [ancLoop] at h
    cases hq : rec q with
    | none => rw [hq] at h; cases h
    | some b =>
      cases b with
      | true => rw [hq] at h; cases h
      | false =>
        rw [hq] at h
        rcases List.mem_cons.mp hp with rfl | hp2
        · exact hq
        · exact ih h p hp2

/-- A terminating `is_ancestor` run that answers `False` refutes the
parent-closure relation. -/
lemma is_ancestor_false_not_anc (db : Gedcom) :
    ∀ n a c, is_ancestor db n a c = some false → ¬ Anc db a c := by
  intro n
  induction n with
  | zero => intro a c h; cases h
  | succ n ih =>
    intro a c h hanc
    rw [is_ancestor] at h
    by_cases hp : is_parent db a c
    · rw [if_pos hp] at h; cases h
    · rw [if_neg hp] at h
      cases hanc with
      | parent hmem =>
        exact hp (by simpa [is_parent] using hmem)
      | step hmem hanc2 =>
        exact ih _ _ (ancLoop_false h _ hmem) hanc2

/-- If no member of the current generation reaches `b` through parent hops,
a terminating `distLoop` run reports no relation. -/
lemma distLoop_unreachable (db : Gedcom) :
    ∀ n gen d b r, (∀ g ∈ gen, ¬ Reach db g b) →
      distLoop db n gen d b = some r → r = none := by
  intro n
  induction n with
  | zero => intro gen d b r _ h; cases h
  | succ n ih =>
    intro gen d b r hno h
    rw [distLoop] at h
    by_cases hg : gen = []
    · rw [if_pos hg] at h
      cases h
      rfl
    · rw [if_neg hg] at h
      by_cases hb : b ∈ gen
      · exact absurd (Reach.refl b) (hno b hb)
      · rw [if_neg hb] at h
        refine ih _ _ _ _ ?_ h
        intro g hgmem hreach
        rcases List.mem_flatMap.mp hgmem with ⟨g0, hg0, hpar⟩
        exact hno g0 hg0 (Reach.step hpar hreach)

/-! ## Claim theorems -/

/-- C10: with zero marriage events `Family.marriage()` raises an uncaught
`IndexError` (it indexes `marriage_events[0]` unguarded), while
`Individual.birth()` and `Individual.death()` return `None` on empty event
lists. -/
theorem marriage_raises_birth_death_absent (f : Fam) (i : Ind) :
    (f.marriage_events = [] → marriage f = Except.error PyExc.indexError)
    ∧ (i.birth_events = [] → birth i = none)
    ∧ (i.death_events = [] → death i = none) := by
  refine ⟨fun h => ?_, fun h => ?_, fun h => ?_⟩
  · rw [marriage, h]
  · rw [birth, h]
  · rw [death, h]

/-- Witness for C10 on a concrete eventless family and individual. -/
theorem marriage_raises_birth_death_absent_witness :
    marriage emptyFam = Except.error PyExc.indexError
    ∧ birth emptyInd = none ∧ death emptyInd = none :=
  ⟨(marriage_raises_birth_death_absent emptyFam emptyInd).1 rfl,
   (marriage_raises_birth_death_absent emptyFam emptyInd).2.1 rfl,
   (marriage_raises_birth_death_absent emptyFam emptyInd).2.2 rfl⟩

/-- C2 (code bug): on the cyclic pedigree `dbCyc` (individual 0 is a parent
of itself), `is_ancestor(0, 1)` exhausts any amount of fuel — the Python
recursion never terminates, contradicting the required tolerance of cyclic
data. -/
theorem is_ancestor_diverges_on_cycle :
    ∀ n, is_ancestor dbCyc n 0 1 = none := by
  intro n
  induction n with
  | zero => rfl
  | succ n ih =>
    rw [is_ancestor]
    have hp : is_parent dbCyc 0 1 = false := by decide
    rw [hp]
    have hpar : indParents dbCyc 0 = [0] := rfl
    rw [if_neg (by simp), hpar, ancLoop, ih]

/-- C5 (code bug): on `dbPath` with `compact = True`, the sibling check
succeeds and the code runs `full_path[-1][1] = 'sibling'` on a tuple,
raising an uncaught `TypeError` instead of producing a sibling-labelled
step. -/
theorem path_to_relative_compact_type_error :
    path_to_relative dbPath 6 0 1 true = some (PathOut.pyError "TypeError") := by
  rfl

/-- C9: `children_tag_records` silently omits a matching child line whose
xref value is missing from the registry (first conjunct), and each
resolvable matching child contributes its record at its file position
(second conjunct) — so the result is the resolved records in file order,
with no error ever signalled. -/
theorem children_tag_records_spec (dict : String → Option Nat) (t : String) :
    (∀ pre post e, e.tag = t → dict e.value = none →
       children_tag_records dict (pre ++ e :: post) t =
       children_tag_records dict (pre ++ post) t)
    ∧ (∀ pre post e r, e.tag = t → dict e.value = some r →
       children_tag_records dict (pre ++ e :: post) t =
       children_tag_records dict pre t ++
         r :: children_tag_records dict post t) := by
  constructor
  · intro pre post e htag hval
    simp [children_tag_records, children_tags, List.filter_append,
      List.filter_cons, htag, List.filterMap_append, List.filterMap_cons,
      hval]
  · intro pre post e r htag hval
    simp [children_tag_records, children_tags, List.filter_append,
      List.filter_cons, htag, List.filterMap_append, List.filterMap_cons,
      hval]

/-- Witness for C9: a FAMC line with a dangling xref between two resolvable
ones is silently dropped; a resolvable one lands in file order. -/
theorem children_tag_records_spec_witness :
    children_tag_records dict9
        [⟨"FAMC", "@F1@"⟩, ⟨"FAMC", "@MISSING@"⟩, ⟨"FAMC", "@F2@"⟩] "FAMC" =
      children_tag_records dict9 [⟨"FAMC", "@F1@"⟩, ⟨"FAMC", "@F2@"⟩] "FAMC"
    ∧ children_tag_records dict9
        [⟨"FAMC", "@F1@"⟩, ⟨"FAMC", "@F2@"⟩] "FAMC" =
      children_tag_records dict9 [⟨"FAMC", "@F1@"⟩] "FAMC" ++
        2 :: children_tag_records dict9 [] "FAMC" :=
  ⟨(children_tag_records_spec dict9 "FAMC").1
      [⟨"FAMC", "@F1@"⟩] [⟨"FAMC", "@F2@"⟩] ⟨"FAMC", "@MISSING@"⟩ rfl rfl,
   (children_tag_records_spec dict9 "FAMC").2
      [⟨"FAMC", "@F1@"⟩] [] ⟨"FAMC", "@F2@"⟩ 2 rfl rfl⟩

/-- C7: `parent_family()` returns `None` for zero parent families and raises
`MultipleReturnValues` (the spec's AmbiguousResult) for two or more;
`get_parent_families()` resolves FAMC lines in declaration order (it maps
over the file-ordered lines, so it distributes over concatenation). -/
theorem parent_family_spec (dict : String → Option Nat)
    (lines : List ChildLine) :
    (get_parent_families dict lines = [] →
       parent_family (get_parent_families dict lines) = Except.ok none)
    ∧ (2 ≤ (get_parent_families dict lines).length →
       parent_family (get_parent_families dict lines) =
         Except.error PyExc.multipleReturnValues)
    ∧ (∀ l1 l2, get_parent_families dict (l1 ++ l2) =
         get_parent_families dict l1 ++ get_parent_families dict l2) := by
  refine ⟨fun h => ?_, fun h => ?_, fun l1 l2 => ?_⟩
  · rw [h]; rfl
  · cases hpf : get_parent_families dict lines with
    | nil => rw [hpf] at h; cases h
    | cons x xs =>
      cases xs with
      | nil => rw [hpf] at h; exact absurd h (by simp)
      | cons y ys => rfl
  · simp [get_parent_families, children_tag_records, children_tags,
      List.filter_append, List.filterMap_append]

/-- Witness for C7: an individual with two FAMC lines (`@F1@`, `@F2@`) gets
both families in order and an ambiguity error from the singular accessor;
with no FAMC lines the accessor returns `None`. -/
theorem parent_family_spec_witness :
    parent_family
        (get_parent_families dict9 [⟨"FAMC", "@F1@"⟩, ⟨"FAMC", "@F2@"⟩]) =
      Except.error PyExc.multipleReturnValues
    ∧ parent_family (get_parent_families dict9 []) = Except.ok none
    ∧ get_parent_families dict9 ([⟨"FAMC", "@F1@"⟩] ++ [⟨"FAMC", "@F2@"⟩]) =
        get_parent_families dict9 [⟨"FAMC", "@F1@"⟩] ++
        get_parent_families dict9 [⟨"FAMC", "@F2@"⟩] :=
  ⟨(parent_family_spec dict9 [⟨"FAMC", "@F1@"⟩, ⟨"FAMC", "@F2@"⟩]).2.1
      (by decide),
   (parent_family_spec dict9 []).1 rfl,
   (parent_family_spec dict9 [⟨"FAMC", "@F1@"⟩, ⟨"FAMC", "@F2@"⟩]).2.2
      [⟨"FAMC", "@F1@"⟩] [⟨"FAMC", "@F2@"⟩]⟩

/-- C8 (counterexample): individual 0 of `dbTwoFathers` has two father and
two mother candidates, yet `father()`/`mother()` raise nothing — they
return the plain candidate lists. -/
theorem father_returns_list_on_two_candidates :
    father dbTwoFathers 0 = SingleOrList.many [1, 2]
    ∧ mother dbTwoFathers 0 = SingleOrList.many [3, 4] := by
  exact ⟨rfl, rfl⟩

/-- C8 (amended): `father()`/`mother()` return the single candidate when
exactly one exists and otherwise silently return the whole candidate list —
the empty list for zero candidates, the full list for two or more; no
ambiguity exception is ever raised. -/
theorem father_mother_case_spec (db : Gedcom) (i : Nat) :
    (fathersOf db i = [] → father db i = SingleOrList.many [])
    ∧ (∀ x, fathersOf db i = [x] → father db i = SingleOrList.one x)
    ∧ (2 ≤ (fathersOf db i).length →
        father db i = SingleOrList.many (fathersOf db i))
    ∧ (mothersOf db i = [] → mother db i = SingleOrList.many [])
    ∧ (∀ x, mothersOf db i = [x] → mother db i = SingleOrList.one x)
    ∧ (2 ≤ (mothersOf db i).length →
        mother db i = SingleOrList.many (mothersOf db i)) := by
  refine ⟨fun h => ?_, fun x h => ?_, fun h => ?_,
          fun h => ?_, fun x h => ?_, fun h => ?_⟩
  · rw [father, h]
  · rw [father, h]
  · rw [father]
    cases hf : fathersOf db i with
    | nil => rfl
    | cons a l =>
      cases l with
      | nil => rw [hf] at h; exact absurd h (by simp)
      | cons b l2 => rfl
  · rw [mother, h]
  · rw [mother, h]
  · rw [mother]
    cases hf : mothersOf db i with
    | nil => rfl
    | cons a l =>
      cases l with
      | nil => rw [hf] at h; exact absurd h (by simp)
      | cons b l2 => rfl

/-- Witness for the amended C8: zero, one and two candidates on concrete
graphs. -/
theorem father_mother_case_spec_witness :
    father dbEmpty 0 = SingleOrList.many []
    ∧ father dbSib 0 = SingleOrList.one 2
    ∧ father dbTwoFathers 0 = SingleOrList.many (fathersOf dbTwoFathers 0)
    ∧ mother dbSib 0 = SingleOrList.one 3 :=
  ⟨(father_mother_case_spec dbEmpty 0).1 rfl,
   (father_mother_case_spec dbSib 0).2.1 2 rfl,
   (father_mother_case_spec dbTwoFathers 0).2.2.1 (by decide),
   (father_mother_case_spec dbSib 0).2.2.2.2.1 3 rfl⟩

/-- C4: `distance_to_ancestor(I, I)` answers 0 immediately; a grandparent
`g` reached through a parent `p` (and not a parent itself) is at distance 2;
and whenever the sought individual is unreachable through parent hops, a
terminating run reports no relation (`None`), which happens exactly when a
generation empties out. -/
theorem distance_to_ancestor_spec :
    (∀ db i n, distance_to_ancestor db (n + 1) i i = some (some 0))
    ∧ (∀ db k p g n, g ≠ k → g ∉ indParents db k → p ∈ indParents db k →
        g ∈ indParents db p →
        distance_to_ancestor db (n + 3) k g = some (some 2))
    ∧ (∀ db x y n r, ¬ Reach db x y →
        distance_to_ancestor db n x y = some r → r = none) := by
  refine ⟨fun db i n => ?_, fun db k p g n hgk hgpar hp hgp => ?_,
          fun db x y n r hno h => ?_⟩
  · rw [distance_to_ancestor, distLoop]
    simp
  · rw [distance_to_ancestor, distLoop]
    rw [if_neg (by simp), if_neg (by simp [hgk])]
    have h1 : [k].flatMap (indParents db) = indParents db k := by simp
    rw [h1, distLoop]
    rw [if_neg (List.ne_nil_of_mem hp), if_neg hgpar, distLoop]
    have h2 : g ∈ (indParents db k).flatMap (indParents db) :=
      List.mem_flatMap.mpr ⟨p, hp, hgp⟩
    rw [if_neg (List.ne_nil_of_mem h2), if_pos h2]
  · refine distLoop_unreachable db n [x] 0 y r ?_ h
    intro g hg hreach
    rcases List.mem_singleton.mp hg with rfl
    exact hno hreach

/-- Witness for C4: self-distance on `dbKPG`, the grandparent chain
0 → 1 → 2 of `dbKPG`, and the empty graph where nothing is reachable. -/
theorem distance_to_ancestor_spec_witness :
    distance_to_ancestor dbKPG 1 0 0 = some (some 0)
    ∧ distance_to_ancestor dbKPG 3 0 2 = some (some 2)
    ∧ (none : Option Nat) = none :=
  ⟨distance_to_ancestor_spec.1 dbKPG 0 0,
   distance_to_ancestor_spec.2.1 dbKPG 0 1 2 0 (by decide) (by decide)
     (by decide) (by decide),
   distance_to_ancestor_spec.2.2 dbEmpty 0 1 2 none
     (by
       intro h
       cases h with
       | step hp h2 => simp [indParents, dbEmpty, emptyInd] at hp)
     rfl⟩

/-- C6 (counterexample): in `dbCyc6`, individual 3 is a parent of 2 and 2 is
a parent of 0, so 3 is an ancestor of a member of `parents(0)`; yet
`is_ancestor(0, 3)` never returns `True` — the loop recurses into the
cyclic parent 1 first and never terminates. -/
theorem is_ancestor_misses_ancestor_on_cycle :
    is_parent dbCyc6 2 3 = true ∧ 2 ∈ indParents dbCyc6 0
    ∧ ¬ ∃ n, is_ancestor dbCyc6 n 0 3 = some true := by
  refine ⟨by decide, by decide, ?_⟩
  have hinner : ∀ m, is_ancestor dbCyc6 m 1 3 = none := by
    intro m
    induction m with
    | zero => rfl
    | succ m ih =>
      rw [is_ancestor]
      have hp : is_parent dbCyc6 1 3 = false := by decide
      rw [hp]
      have hpar : indParents dbCyc6 1 = [1] := rfl
      rw [if_neg (by simp), hpar, ancLoop, ih]
  have houter : ∀ m, is_ancestor dbCyc6 m 0 3 = none := by
    intro m
    cases m with
    | zero => rfl
    | succ m =>
      rw [is_ancestor]
      have hp : is_parent dbCyc6 0 3 = false := by decide
      rw [hp]
      have hpar : indParents dbCyc6 0 = [1, 2] := rfl
      rw [if_neg (by simp), hpar, ancLoop, hinner]
  rintro ⟨n, hn⟩
  rw [houter n] at hn
  cases hn

/-- C6 (amended): `is_ancestor(self, candidate)` returns `True` whenever
candidate is a direct parent (one unit of fuel suffices — no recursion is
needed); and whenever candidate is an ancestor of a member of
`parents(self)` at any depth *and the evaluation terminates*, the returned
answer is `True`. (Without the termination proviso the claim fails on
cyclic data: see the counterexample.) -/
theorem is_ancestor_sound_when_terminating (db : Gedcom) :
    (∀ x c n, c ∈ indParents db x → is_ancestor db (n + 1) x c = some true)
    ∧ (∀ n x c r, Anc db x c → is_ancestor db n x c = some r → r = true) := by
  constructor
  · intro x c n hmem
    rw [is_ancestor, if_pos (by simp [is_parent, hmem])]
  · intro n x c r hanc hrun
    cases r with
    | true => rfl
    | false => exact absurd hanc (is_ancestor_false_not_anc db n x c hrun)

/-- Witness for the amended C6 on `dbKPG`: direct parent 1 of 0, and
grandparent 2 (an ancestor of parent 1) found by a terminating run. -/
theorem is_ancestor_sound_when_terminating_witness :
    is_ancestor dbKPG 1 0 1 = some true ∧ (true : Bool) = true :=
  ⟨(is_ancestor_sound_when_terminating dbKPG).1 0 1 0 (by decide),
   (is_ancestor_sound_when_terminating dbKPG).2 3 0 2 true
     (@Anc.step dbKPG 0 1 2 (by decide) (@Anc.parent dbKPG 1 2 (by decide)))
     (by decide)⟩

/-- If the concatenating loop over families succeeded, every family's
recursive enumeration succeeded. -/
lemma famAncChildren_success {rec : Nat → Option (List (Nat × Nat))} :
    ∀ {fs : List Nat} {L}, famAncChildren rec fs = some L →
      ∀ f ∈ fs, ∃ lf, rec f = some lf := by
  intro fs
  induction fs with
  | nil => intro L _ f hf; cases hf
  | cons g gs ih =>
    intro L h f hf
    rw [famAncChildren] at h
    cases h1 : rec g with
    | none => rw [h1] at h; cases h
    | some l1 =>
      cases h2 : famAncChildren rec gs with
      | none => rw [h1, h2] at h; cases h
      | some l2 =>
        rcases List.mem_cons.mp hf with rfl | hf2
        · exact ⟨l1, h1⟩
        · exact ih h2 f hf2

/-- Membership in a successful concatenating loop over families. -/
lemma famAncChildren_mem {rec : Nat → Option (List (Nat × Nat))} :
    ∀ {fs : List Nat} {L}, famAncChildren rec fs = some L →
      ∀ g e, ((g, e) ∈ L ↔ ∃ f ∈ fs, ∃ lf, rec f = some lf ∧ (g, e) ∈ lf) := by
  intro fs
  induction fs with
  | nil =>
    intro L h g e
    rw [famAncChildren] at h
    cases h
    simp
  | cons f0 gs ih =>
    intro L h g e
    rw [famAncChildren] at h
    cases h1 : rec f0 with
    | none => rw [h1] at h; cases h
    | some l1 =>
      cases h2 : famAncChildren rec gs with
      | none => rw [h1, h2] at h; cases h
      | some l2 =>
        rw [h1, h2] at h
        cases h
        constructor
        · intro hm
          rcases List.mem_append.mp hm with hm1 | hm2
          · exact ⟨f0, List.mem_cons_self f0 gs, l1, h1, hm1⟩
          · rcases (ih h2 g e).mp hm2 with ⟨f, hf, lf, hrec, hmem⟩
            exact ⟨f, List.mem_cons_of_mem f0 hf, lf, hrec, hmem⟩
        · rintro ⟨f, hf, lf, hrec, hmem⟩
          rcases List.mem_cons.mp hf with rfl | hf2
          · rw [h1] at hrec
            cases hrec
            exact List.mem_append_left l2 hmem
          · exact List.mem_append_right l1
              ((ih h2 g e).mpr ⟨f, hf2, lf, hrec, hmem⟩)

/-- A successful run of `Family._ancestor_families_with_distance(d)` lists
exactly the pairs `(g, d + k)` with `g` an ancestor family `k` hops up. -/
lemma famAncFuel_mem (db : Gedcom) :
    ∀ n f d L, famAncFuel db n f d = some L →
      ∀ g e, ((g, e) ∈ L ↔ ∃ k, e = d + k ∧ FamAncAt db f g k) := by
  intro n
  induction n with
  | zero => intro f d L h; cases h
  | succ n ih =>
    intro f d L h g e
    rw [famAncFuel] at h
    cases hc : famAncChildren (fun g2 => famAncFuel db n g2 (d + 1))
        (famParentFamilies db f) with
    | none => rw [hc] at h; cases h
    | some rest =>
      rw [hc] at h
      cases h
      constructor
      · intro hm
        rcases List.mem_append.mp hm with hm1 | hm2
        · rcases List.mem_map.mp hm1 with ⟨g0, hg0, heq⟩
          cases heq
          exact ⟨0, by omega, FamAncAt.base hg0⟩
        · rcases (famAncChildren_mem hc g e).mp hm2 with
            ⟨f0, hf0, lf, hrec, hmem⟩
          rcases (ih f0 (d + 1) lf hrec g e).mp hmem with ⟨k, hk, hfam⟩
          exact ⟨k + 1, by omega, FamAncAt.step hf0 hfam⟩
      · rintro ⟨k, hk, hfam⟩
        cases hfam with
        | base hg =>
          refine List.mem_append_left rest ?_
          have he : e = d := by omega
          rw [he]
          exact List.mem_map.mpr ⟨g, hg, rfl⟩
        | step hg0 hfam2 =>
          rename_i g0 k2
          refine List.mem_append_right _ ?_
          rcases famAncChildren_success hc g0 hg0 with ⟨lf, hrec⟩
          refine (famAncChildren_mem hc g e).mpr ⟨g0, hg0, lf, hrec, ?_⟩
          exact (ih g0 (d + 1) lf hrec g e).mpr ⟨k2, by omega, hfam2⟩

/-- C3 (counterexample): on `dbAncDup`, family 12 is reachable at distance 1
(through the mother) and at distance 2 (through the father's line), and the
enumeration keeps both pairs — the pair `(12, 2)` is not labelled with
family 12's minimal distance 1. -/
theorem ancestor_families_distance_not_minimal :
    ancestor_families_with_distance dbAncDup 4 0 =
      some [(10, 0), (11, 1), (12, 1), (12, 2)] := by
  rfl

/-- C3 (amended): a successful `ancestor_families_with_distance()` run is
sorted ascending by distance, and contains `(f, d)` exactly when `f` is an
ancestor family along some upward lineage path of generational distance `d`
(0 = own parent family, 1 = grandparent level, ...). A family reachable
along several paths appears once per path, so it may also carry
non-minimal distances; its minimal distance is among its labels. -/
theorem ancestor_families_sorted_path_distances (db : Gedcom) (n i : Nat)
    (l : List (Nat × Nat))
    (h : ancestor_families_with_distance db n i = some l) :
    List.Sorted distLe l ∧ ∀ f d, ((f, d) ∈ l ↔ IndAncFamAt db i f d) := by
  rw [ancestor_families_with_distance] at h
  cases hc : famAncChildren
      (fun f => (famAncFuel db n f 1).map (fun lf => (f, 0) :: lf))
      ((db.ind i).parent_families) with
  | none => rw [hc] at h; cases h
  | some L0 =>
    rw [hc, Option.map_some'] at h
    cases h
    refine ⟨List.sorted_insertionSort distLe L0, fun f d => ?_⟩
    rw [(List.perm_insertionSort distLe L0).mem_iff]
    rw [famAncChildren_mem hc f d]
    constructor
    · rintro ⟨f0, hf0, lf, hrec, hmem⟩
      rcases Option.map_eq_some'.mp hrec with ⟨lf0, hfuel, rfl⟩
      rcases List.mem_cons.mp hmem with heq | hmem2
      · cases heq
        exact Or.inl ⟨rfl, hf0⟩
      · rcases (famAncFuel_mem db n f0 1 lf0 hfuel f d).mp hmem2 with
          ⟨k, hk, hfam⟩
        exact Or.inr ⟨f0, hf0, k, by omega, hfam⟩
    · rintro (⟨rfl, hmem⟩ | ⟨f0, hf0, k, rfl, hfam⟩)
      · rcases famAncChildren_success hc f hmem with ⟨lf, hrec⟩
        exact ⟨f, hmem, lf, hrec, by
          rcases Option.map_eq_some'.mp hrec with ⟨lf0, hfuel, rfl⟩
          exact List.mem_cons_self _ _⟩
      · rcases famAncChildren_success hc f0 hf0 with ⟨lf, hrec⟩
        refine ⟨f0, hf0, lf, hrec, ?_⟩
        rcases Option.map_eq_some'.mp hrec with ⟨lf0, hfuel, rfl⟩
        refine List.mem_cons_of_mem _ ?_
        exact (famAncFuel_mem db n f0 1 lf0 hfuel f (k + 1)).mpr
          ⟨k, by omega, hfam⟩

/-- Witness for the amended C3 on `dbKPG`: the run yields
`[(0, 0), (1, 1)]`, sorted, with the path-distance characterisation. -/
theorem ancestor_families_sorted_path_distances_witness :
    List.Sorted distLe [(0, 0), (1, 1)]
    ∧ ∀ f d, (((f, d) : Nat × Nat) ∈ [(0, 0), (1, 1)] ↔
        IndAncFamAt dbKPG 0 f d) :=
  ancestor_families_sorted_path_distances dbKPG 3 0 [(0, 0), (1, 1)] rfl

/-- C1: `common_ancestor_families(self, relative)` short-circuits on a
directly shared parent family (returning exactly the shared families, at
distance 0); otherwise, for terminating ancestor enumerations, it returns
the empty list when the two ancestor-family sets do not intersect, and
otherwise exactly the intersected families carrying the minimal self-side
distance, all ties included. -/
theorem common_ancestor_families_spec (db : Gedcom) (n a b : Nat) :
    (mutual_parent_families db a b ≠ [] →
       common_ancestor_families db n a b =
         some (mutual_parent_families db a b))
    ∧ (∀ f, f ∈ mutual_parent_families db a b ↔
         f ∈ (db.ind a).parent_families ∧ f ∈ (db.ind b).parent_families)
    ∧ (mutual_parent_families db a b = [] →
       ∀ my his, ancestor_families_with_distance db n a = some my →
         ancestor_families_with_distance db n b = some his →
         ∃ res, common_ancestor_families db n a b = some res
           ∧ ((∀ f, f ∈ my.map Prod.fst → f ∉ his.map Prod.fst) → res = [])
           ∧ ((∃ f, f ∈ my.map Prod.fst ∧ f ∈ his.map Prod.fst) →
               ∃ m, IsMinCommonDist my his m
                 ∧ ∀ f, (f ∈ res ↔ (f, m) ∈ my ∧ f ∈ his.map Prod.fst))) := by
  refine ⟨fun hne => ?_, fun f => ?_, fun hmut my his hmy hhis => ?_⟩
  · rw [common_ancestor_families]
    rw [if_pos hne]
  · simp [mutual_parent_families, List.mem_dedup, List.mem_filter]
  · by_cases hmyE : my = []
    · refine ⟨[], ?_, fun _ => rfl, ?_⟩
      · simp [common_ancestor_families, hmut, hmy, hmyE]
      · rintro ⟨f, hf1, _⟩
        rw [hmyE] at hf1
        cases hf1
    · by_cases hhisE : his = []
      · refine ⟨[], ?_, fun _ => rfl, ?_⟩
        · simp [common_ancestor_families, hmut, hmy, hhis, hmyE, hhisE]
        · rintro ⟨f, _, hf2⟩
          rw [hhisE] at hf2
          cases hf2
      · have hcmem : ∀ f,
            (f ∈ ((my.map Prod.fst).filter
                (fun f => f ∈ his.map Prod.fst)).dedup ↔
              f ∈ my.map Prod.fst ∧ f ∈ his.map Prod.fst) := by
          intro f
          simp [List.mem_dedup, List.mem_filter]
        by_cases hcE : ((my.map Prod.fst).filter
            (fun f => f ∈ his.map Prod.fst)).dedup = []
        · refine ⟨[], ?_, fun _ => rfl, ?_⟩
          · simp [common_ancestor_families, hmut, hmy, hhis, hmyE, hhisE, hcE]
          · rintro ⟨f, hf1, hf2⟩
            have : f ∈ ((my.map Prod.fst).filter
                (fun f => f ∈ his.map Prod.fst)).dedup :=
              (hcmem f).mpr ⟨hf1, hf2⟩
            rw [hcE] at this
            cases this
        · -- the intersection is nonempty: the minimum is taken
          cases hmin : ((my.filter (fun p => p.1 ∈ ((my.map Prod.fst).filter
              (fun f => f ∈ his.map Prod.fst)).dedup)).map Prod.snd).min? with
          | none =>
            exfalso
            rw [List.min?_eq_none_iff, List.map_eq_nil_iff] at hmin
            rcases List.exists_mem_of_ne_nil _ hcE with ⟨f, hf⟩
            rcases (hcmem f).mp hf with ⟨hf1, hf2⟩
            rcases List.mem_map.mp hf1 with ⟨p, hp, hpf⟩
            have hpc : p ∈ my.filter (fun p => p.1 ∈ ((my.map Prod.fst).filter
                (fun f => f ∈ his.map Prod.fst)).dedup) :=
              List.mem_filter.mpr ⟨hp, by simp [hpf, (hcmem f).mpr ⟨hf1, hf2⟩]⟩
            rw [hmin] at hpc
            cases hpc
          | some m =>
            have hsome : (((my.filter (fun p => p.1 ∈ ((my.map Prod.fst).filter
                (fun f => f ∈ his.map Prod.fst)).dedup)).map Prod.snd).min?
                  = some m) := hmin
            rw [List.min?_eq_some_iff Nat.le_refl (fun x y => min_choice x y)
              (fun x y z => le_min_iff)] at hsome
            rcases hsome with ⟨hm_mem, hm_le⟩
            refine ⟨((my.filter (fun p => p.1 ∈ ((my.map Prod.fst).filter
                (fun f => f ∈ his.map Prod.fst)).dedup)).filter
                  (fun p => p.2 = m)).map Prod.fst, ?_, ?_, ?_⟩
            · simp only [common_ancestor_families, hmut, hmy, hhis, hmyE,
                hhisE, hcE, hmin]
              simp [hmut, hmyE, hhisE, hcE, hmin]
            · intro hnone
              exfalso
              rcases List.exists_mem_of_ne_nil _ hcE with ⟨f, hf⟩
              rcases (hcmem f).mp hf with ⟨hf1, hf2⟩
              exact hnone f hf1 hf2
            · intro _
              refine ⟨m, ⟨?_, ?_⟩, ?_⟩
              · -- ∃ g, (g, m) ∈ my ∧ g ∈ his.map Prod.fst
                rcases List.mem_map.mp hm_mem with ⟨p, hp, hpm⟩
                rcases List.mem_filter.mp hp with ⟨hpmy, hpc⟩
                have hpc2 : p.1 ∈ ((my.map Prod.fst).filter
                    (fun f => f ∈ his.map Prod.fst)).dedup := by
                  simpa using hpc
                rcases (hcmem p.1).mp hpc2 with ⟨_, hp2⟩
                refine ⟨p.1, ?_, hp2⟩
                have : p = (p.1, m) := by
                  cases p
                  simp at hpm
                  simp [hpm]
                rw [← this]
                exact hpmy
              · -- lower bound
                intro g d hgd hg2
                have hgc : (g, d) ∈ my.filter (fun p =>
                    p.1 ∈ ((my.map Prod.fst).filter
                      (fun f => f ∈ his.map Prod.fst)).dedup) := by
                  refine List.mem_filter.mpr ⟨hgd, ?_⟩
                  simp only [decide_eq_true_eq]
                  exact (hcmem g).mpr ⟨List.mem_map.mpr ⟨(g, d), hgd, rfl⟩, hg2⟩
                exact hm_le d (List.mem_map.mpr ⟨(g, d), hgc, rfl⟩)
              · -- membership characterisation of the result
                intro f
                constructor
                · intro hf
                  rcases List.mem_map.mp hf with ⟨p, hp, hpf⟩
                  rcases List.mem_filter.mp hp with ⟨hp1, hp2⟩
                  rcases List.mem_filter.mp hp1 with ⟨hpmy, hpc⟩
                  have hp2e : p.2 = m := by simpa using hp2
                  have hpeq : p = (f, m) := by
                    cases p
                    simp at hpf hp2e
                    simp [hpf, hp2e]
                  rw [hpeq] at hpmy hpc
                  have hpc2 : f ∈ ((my.map Prod.fst).filter
                      (fun f => f ∈ his.map Prod.fst)).dedup := by
                    simpa using hpc
                  exact ⟨hpmy, ((hcmem f).mp hpc2).2⟩
                · rintro ⟨hfm, hf2⟩
                  refine List.mem_map.mpr ⟨(f, m), ?_, rfl⟩
                  refine List.mem_filter.mpr ⟨?_, by simp⟩
                  refine List.mem_filter.mpr ⟨hfm, ?_⟩
                  simp only [decide_eq_true_eq]
                  exact (hcmem f).mpr ⟨List.mem_map.mpr ⟨(f, m), hfm, rfl⟩, hf2⟩

/-- Witness for C1: the sibling short-circuit on `dbSib`, and the
distance-minimising intersection for the cousins of `dbCousin`, whose
ancestor enumerations are `[(20, 0), (22, 1)]` and `[(21, 0), (22, 1)]`. -/
theorem common_ancestor_families_spec_witness :
    common_ancestor_families dbSib 1 0 1 =
      some (mutual_parent_families dbSib 0 1)
    ∧ ∃ res, common_ancestor_families dbCousin 3 0 1 = some res
        ∧ ((∀ f, f ∈ ([(20, 0), (22, 1)] : List (Nat × Nat)).map Prod.fst →
             f ∉ ([(21, 0), (22, 1)] : List (Nat × Nat)).map Prod.fst) →
             res = [])
        ∧ ((∃ f, f ∈ ([(20, 0), (22, 1)] : List (Nat × Nat)).map Prod.fst ∧
             f ∈ ([(21, 0), (22, 1)] : List (Nat × Nat)).map Prod.fst) →
            ∃ m, IsMinCommonDist [(20, 0), (22, 1)] [(21, 0), (22, 1)] m
              ∧ ∀ f, (f ∈ res ↔
                  ((f, m) ∈ ([(20, 0), (22, 1)] : List (Nat × Nat)) ∧
                   f ∈ ([(21, 0), (22, 1)] : List (Nat × Nat)).map Prod.fst))) :=
  ⟨(common_ancestor_families_spec dbSib 1 0 1).1 (by decide),
   (common_ancestor_families_spec dbCousin 3 0 1).2.2 (by decide)
     [(20, 0), (22, 1)] [(21, 0), (22, 1)] rfl rfl⟩
